import Mathlib

/-!
Verification development for the mcp-gopls repository: a shallow embedding of
the LSP protocol client, the text-edit application engine, the notification
sink, and the position/URI conversion helpers, with theorems settling the
specification claims about them.

Modelling conventions:
- Go strings are modelled as `List Char`; the repository's inputs of interest
  are single-byte (ASCII) text, on which Go's byte indexing and character
  indexing agree.
- LSP wire positions are modelled with `Nat` fields (the LSP wire type is
  `uinteger`); the user-facing 1-indexed coordinates handled by
  `ConvertPosition` are Go `int`s and are modelled with `Int`.
- Go `encoding/json` raw messages are modelled by the inductive `Json` type
  below, and `json.Unmarshal` into the repository's structs is modelled field
  by field with Go's leniency: unknown object keys are ignored, missing keys
  leave the zero value, `null` leaves the zero value, and only a shape
  mismatch between a present value and the target field is an error.
-/

namespace McpGopls

/-- LSP position, from `lsp.Position` (fields `Line`, `Character`). -/
structure Position where
  line : Nat
  character : Nat
deriving DecidableEq, Repr

/-- LSP range, from `lsp.Range`. -/
structure Range where
  start : Position
  «end» : Position
deriving DecidableEq, Repr

/-- LSP location, from `lsp.Location`. -/
structure Location where
  uri : String
  range : Range
deriving DecidableEq, Repr

/-- LSP text edit, from `lsp.TextEdit` (fields `Range`, `NewText`). -/
structure TextEdit where
  range : Range
  newText : List Char
deriving DecidableEq, Repr

/-! ## Edit application engine

From `applyEditsToFile` in the rename tool (and its twin `applyTextEdits` in
the organize-imports tool): split the file into lines, sort the edits by
descending (start line, start character), apply each edit to the line list,
join with newlines and write back. The write happens only after every edit
has been applied successfully.
-/

/-- Splitting file content on newline characters, from Go
`strings.Split(string(content), "\n")`. -/
def splitLines : List Char → List (List Char)
  | [] => [[]]
  | c :: rest =>
    if c = '\n' then [] :: splitLines rest
    else
      match splitLines rest with
      | l :: ls => (c :: l) :: ls
      | [] => [[c]]

/-- Joining lines with newline separators, from Go `strings.Join(lines, "\n")`. -/
def joinLines (lines : List (List Char)) : List Char :=
  List.intercalate ['\n'] lines

/-- The comparator of the `sort.Slice` call in `applyEditsToFile`: edit `a`
comes before edit `b` when it starts on a later line, or on the same line at
a later character. -/
def editGreater (a b : TextEdit) : Bool :=
  if a.range.start.line ≠ b.range.start.line then
    a.range.start.line > b.range.start.line
  else
    a.range.start.character > b.range.start.character

/-- Insert an edit into an already sorted list, keeping the descending
(start line, start character) order. -/
def orderedInsertEdit (e : TextEdit) : List TextEdit → List TextEdit
  | [] => [e]
  | x :: xs => if editGreater e x then e :: x :: xs else x :: orderedInsertEdit e xs

/-- The reverse-order sort of `applyEditsToFile` (`sort.Slice` with the
descending comparator), modelled as an insertion sort. `sort.Slice` is
unstable, so Go fixes no particular order between edits with equal start
positions; the model picks one. All claims below involve edits with
pairwise distinct start positions, where every comparison sort agrees. -/
def sortEditsRev : List TextEdit → List TextEdit
  | [] => []
  | e :: es => orderedInsertEdit e (sortEditsRev es)

/-- Application of a single edit to the line list, from the loop body of
`applyEditsToFile`: bounds-check the line indices, then either splice within
a single line or merge the `[startLine, endLine]` span into one line built
from the start line's prefix, the replacement text and the end line's
suffix. Character bounds are checked against the current line contents. -/
def applyOneEdit (lines : List (List Char)) (e : TextEdit) :
    Except String (List (List Char)) :=
  if lines.length ≤ e.range.start.line ∨ lines.length ≤ e.range.end.line then
    .error "invalid line number"
  else if e.range.start.line = e.range.end.line then
    if (lines.getD e.range.start.line []).length < e.range.start.character ∨
        (lines.getD e.range.start.line []).length < e.range.end.character then
      .error "invalid character position"
    else
      .ok (lines.set e.range.start.line
        ((lines.getD e.range.start.line []).take e.range.start.character ++
          e.newText ++
          (lines.getD e.range.start.line []).drop e.range.end.character))
  else
    if (lines.getD e.range.start.line []).length < e.range.start.character ∨
        (lines.getD e.range.end.line []).length < e.range.end.character then
      .error "invalid character position in multi-line edit"
    else
      .ok (lines.take e.range.start.line ++
        [(lines.getD e.range.start.line []).take e.range.start.character ++
          e.newText ++
          (lines.getD e.range.end.line []).drop e.range.end.character] ++
        lines.drop (e.range.end.line + 1))

/-- The edit loop of `applyEditsToFile`: apply the sorted edits in order,
stopping at the first error. -/
def applyEdits : List (List Char) → List TextEdit →
    Except String (List (List Char))
  | lines, [] => .ok lines
  | lines, e :: rest =>
    match applyOneEdit lines e with
    | .error msg => .error msg
    | .ok lines' => applyEdits lines' rest

/-- The whole of `applyEditsToFile` minus the filesystem: split the content
into lines, sort the edits in reverse order, apply them, and join. An `ok`
result is the content written back to the file; an `error` result is
returned before any write. -/
def applyEditsToFile (content : List Char) (edits : List TextEdit) :
    Except String (List Char) :=
  match applyEdits (splitLines content) (sortEditsRev edits) with
  | .error msg => .error msg
  | .ok lines => .ok (joinLines lines)

/-- The on-disk effect of `applyEditsToFile`: the file is rewritten only when
the edit loop finished without error (`os.WriteFile` is the last step of the
function, after the loop). -/
def applyEditsToDisk (content : List Char) (edits : List TextEdit) : List Char :=
  match applyEditsToFile content edits with
  | .ok newContent => newContent
  | .error _ => content

/-- A text edit whose range satisfies the data-model invariant start ≤ end in
document order (line-major, then character). -/
def RangeOrdered (e : TextEdit) : Prop :=
  e.range.start.line < e.range.end.line ∨
    (e.range.start.line = e.range.end.line ∧
      e.range.start.character ≤ e.range.end.character)

/-! ## Go JSON model

The protocol client receives untyped results as `json.RawMessage` and probes
them with `encoding/json`'s `Unmarshal`. The `Json` type models the raw
message; the decoders below model `Unmarshal` into the repository's structs
with Go's leniency: an unknown object key is ignored, a missing key and a
JSON `null` leave the target field at its zero value, and only a present
value of the wrong shape is an error. JSON numbers are modelled as naturals
(the LSP wire type for positions and enums is `uinteger`).
-/

inductive Json where
  | jnull : Json
  | jnum (n : Nat) : Json
  | jstr (s : String) : Json
  | jbool (b : Bool) : Json
  | jarr (elems : List Json) : Json
  | jobj (fields : List (String × Json)) : Json

/-- The `string(result) == "null" || len(result) == 0` test of
`Client.Rename` (a zero-length raw message is also modelled by `jnull`). -/
def Json.isNull : Json → Bool
  | .jnull => true
  | _ => false

/-- First value bound to a key in a JSON object. -/
def lookupField (fields : List (String × Json)) (key : String) : Option Json :=
  match fields.find? (fun f => f.1 = key) with
  | some f => some f.2
  | none => none

/-- Decode of a Go `string` struct field: missing key or `null` leaves the
zero value `""`; any other non-string value is an unmarshal error. -/
def getStrField (fields : List (String × Json)) (key : String) :
    Except String String :=
  match lookupField fields key with
  | none => .ok ""
  | some .jnull => .ok ""
  | some (.jstr s) => .ok s
  | some _ => .error ("cannot unmarshal field " ++ key)

/-- Decode of a Go integer struct field (zero value 0). -/
def getNatField (fields : List (String × Json)) (key : String) :
    Except String Nat :=
  match lookupField fields key with
  | none => .ok 0
  | some .jnull => .ok 0
  | some (.jnum n) => .ok n
  | some _ => .error ("cannot unmarshal field " ++ key)

/-- Decode of an `lsp.Position` value. -/
def decodePosition (j : Json) : Except String Position :=
  match j with
  | .jnull => .ok ⟨0, 0⟩
  | .jobj fields => do
    let line ← getNatField fields "line"
    let character ← getNatField fields "character"
    .ok ⟨line, character⟩
  | _ => .error "cannot unmarshal position"

/-- Decode of an `lsp.Position` struct field (zero value `(0,0)`). -/
def getPosField (fields : List (String × Json)) (key : String) :
    Except String Position :=
  match lookupField fields key with
  | none => .ok ⟨0, 0⟩
  | some j => decodePosition j

/-- Decode of an `lsp.Range` value. -/
def decodeRange (j : Json) : Except String Range :=
  match j with
  | .jnull => .ok ⟨⟨0, 0⟩, ⟨0, 0⟩⟩
  | .jobj fields => do
    let s ← getPosField fields "start"
    let e ← getPosField fields "end"
    .ok ⟨s, e⟩
  | _ => .error "cannot unmarshal range"

/-- Decode of an `lsp.Range` struct field (zero value). -/
def getRangeField (fields : List (String × Json)) (key : String) :
    Except String Range :=
  match lookupField fields key with
  | none => .ok ⟨⟨0, 0⟩, ⟨0, 0⟩⟩
  | some j => decodeRange j

/-- Decode of an `lsp.Location` value. -/
def decodeLocation (j : Json) : Except String Location :=
  match j with
  | .jnull => .ok ⟨"", ⟨⟨0, 0⟩, ⟨0, 0⟩⟩⟩
  | .jobj fields => do
    let uri ← getStrField fields "uri"
    let range ← getRangeField fields "range"
    .ok ⟨uri, range⟩
  | _ => .error "cannot unmarshal location"

/-- Map a decoder over a list, failing on the first element error, as
`Unmarshal` into a Go slice does. -/
def mapExcept {α β : Type} (f : α → Except String β) :
    List α → Except String (List β)
  | [] => .ok []
  | a :: rest => do
    let b ← f a
    let bs ← mapExcept f rest
    .ok (b :: bs)

/-- Decode of a `[]lsp.Location` value (`null` decodes to the nil slice). -/
def decodeLocationList (j : Json) : Except String (List Location) :=
  match j with
  | .jnull => .ok []
  | .jarr elems => mapExcept decodeLocation elems
  | _ => .error "cannot unmarshal location list"

/-- The result probing of `Client.Definition` / `Client.Implementation`:
`[]Location` is attempted first, then a single `Location`. -/
def locationsDecode (raw : Json) : Except String (List Location) :=
  match decodeLocationList raw with
  | .ok locs => .ok locs
  | .error _ =>
    match decodeLocation raw with
    | .ok l => .ok [l]
    | .error _ => .error "failed to unmarshal result"

/-- Decode of an `lsp.TextEdit` value. -/
def decodeTextEdit (j : Json) : Except String TextEdit :=
  match j with
  | .jnull => .ok ⟨⟨⟨0, 0⟩, ⟨0, 0⟩⟩, []⟩
  | .jobj fields => do
    let range ← getRangeField fields "range"
    let newText ← getStrField fields "newText"
    .ok ⟨range, newText.data⟩
  | _ => .error "cannot unmarshal text edit"

/-- Decode of a `[]lsp.TextEdit` value. -/
def decodeTextEditList (j : Json) : Except String (List TextEdit) :=
  match j with
  | .jnull => .ok []
  | .jarr elems => mapExcept decodeTextEdit elems
  | _ => .error "cannot unmarshal text edit list"

/-- LSP diagnostic, from `lsp.Diagnostic`. The untyped `Code interface{}`
field is kept as the raw JSON value it was decoded from. -/
structure Diagnostic where
  range : Range
  severity : Nat
  code : Option Json
  source : String
  message : String

/-- Decode of an `lsp.Diagnostic` value; the `code` field accepts any JSON
value (Go `interface{}`). -/
def decodeDiagnostic (j : Json) : Except String Diagnostic :=
  match j with
  | .jnull => .ok ⟨⟨⟨0, 0⟩, ⟨0, 0⟩⟩, 0, none, "", ""⟩
  | .jobj fields => do
    let range ← getRangeField fields "range"
    let severity ← getNatField fields "severity"
    let source ← getStrField fields "source"
    let message ← getStrField fields "message"
    .ok ⟨range, severity, lookupField fields "code", source, message⟩
  | _ => .error "cannot unmarshal diagnostic"

/-- Parameters of the diagnostics push, from `lsp.PublishDiagnosticsParams`. -/
structure PublishDiagnosticsParams where
  uri : String
  diagnostics : List Diagnostic

/-- Decode of `lsp.PublishDiagnosticsParams`. -/
def decodePublishDiagnostics (j : Json) : Except String PublishDiagnosticsParams :=
  match j with
  | .jobj fields => do
    let uri ← getStrField fields "uri"
    let diagnostics ←
      match lookupField fields "diagnostics" with
      | none => Except.ok []
      | some .jnull => Except.ok []
      | some (.jarr elems) => mapExcept decodeDiagnostic elems
      | some _ => Except.error "cannot unmarshal diagnostics"
    .ok ⟨uri, diagnostics⟩
  | _ => .error "cannot unmarshal publish diagnostics params"

/-- Flat symbol record, from `lsp.SymbolInformation`. -/
structure SymbolInformation where
  name : String
  kind : Nat
  location : Location
  containerName : String

/-- Decode of an `lsp.SymbolInformation` value. -/
def decodeSymbolInformation (j : Json) : Except String SymbolInformation :=
  match j with
  | .jnull => .ok ⟨"", 0, ⟨"", ⟨⟨0, 0⟩, ⟨0, 0⟩⟩⟩, ""⟩
  | .jobj fields => do
    let name ← getStrField fields "name"
    let kind ← getNatField fields "kind"
    let location ←
      match lookupField fields "location" with
      | none => Except.ok (⟨"", ⟨⟨0, 0⟩, ⟨0, 0⟩⟩⟩ : Location)
      | some lj => decodeLocation lj
    let containerName ← getStrField fields "containerName"
    .ok ⟨name, kind, location, containerName⟩
  | _ => .error "cannot unmarshal symbol information"

/-- Decode of a `[]lsp.SymbolInformation` value. -/
def decodeSymbolInformationList (j : Json) : Except String (List SymbolInformation) :=
  match j with
  | .jnull => .ok []
  | .jarr elems => mapExcept decodeSymbolInformation elems
  | _ => .error "cannot unmarshal symbol information list"

/-- Hierarchical symbol record, from `lsp.DocumentSymbol` (a tree with an
unbounded child list). -/
inductive DocumentSymbol where
  | mk (name : String) (detail : String) (kind : Nat) (range : Range)
      (selectionRange : Range) (children : List DocumentSymbol)

/-- Name of a document symbol. -/
def DocumentSymbol.name : DocumentSymbol → String
  | .mk n _ _ _ _ _ => n

/-- Own range of a document symbol. -/
def DocumentSymbol.range : DocumentSymbol → Range
  | .mk _ _ _ r _ _ => r

/-- Selection range of a document symbol. -/
def DocumentSymbol.selectionRange : DocumentSymbol → Range
  | .mk _ _ _ _ r _ => r

/-- Children of a document symbol. -/
def DocumentSymbol.children : DocumentSymbol → List DocumentSymbol
  | .mk _ _ _ _ _ c => c

/-- Decode of a JSON array into `[]lsp.DocumentSymbol`, one element at a
time, with Go's lenient struct decoding (an unknown key such as `location`
is ignored, a missing `range`, `selectionRange` or `children` key leaves the
zero value). The fuel argument only bounds the recursion so Lean accepts the
definition; every recursive call strictly decreases it, so passing any fuel
at least the size of the message (as `documentSymbolsTryTree` does) never
hits the limit and the function agrees with Go's unbounded recursion. -/
def decodeDocSymsAux : Nat → List Json → Except String (List DocumentSymbol)
  | _, [] => .ok []
  | 0, _ :: _ => .error "recursion limit"
  | fuel + 1, j :: rest =>
    match j with
    | .jnull => do
      let ds ← decodeDocSymsAux fuel rest
      .ok (.mk "" "" 0 ⟨⟨0, 0⟩, ⟨0, 0⟩⟩ ⟨⟨0, 0⟩, ⟨0, 0⟩⟩ [] :: ds)
    | .jobj fields => do
      let name ← getStrField fields "name"
      let detail ← getStrField fields "detail"
      let kind ← getNatField fields "kind"
      let range ← getRangeField fields "range"
      let selectionRange ← getRangeField fields "selectionRange"
      let children ←
        match lookupField fields "children" with
        | none => Except.ok []
        | some .jnull => Except.ok []
        | some (.jarr elems) => decodeDocSymsAux fuel elems
        | some _ => Except.error "cannot unmarshal children"
      let ds ← decodeDocSymsAux fuel rest
      .ok (.mk name detail kind range selectionRange children :: ds)
    | _ => .error "cannot unmarshal document symbol"

/-- Size of a JSON value, used as the recursion bound of
`decodeDocSymsAux`; it dominates the number of list elements and the nesting
depth of the value. -/
def jsonSize : Json → Nat
  | .jnull => 1
  | .jnum _ => 1
  | .jstr _ => 1
  | .jbool _ => 1
  | .jarr elems => 1 + jsonSizeList elems
  | .jobj fields => 1 + jsonSizeFields fields
where
  jsonSizeList : List Json → Nat
    | [] => 1
    | j :: rest => 1 + jsonSize j + jsonSizeList rest
  jsonSizeFields : List (String × Json) → Nat
    | [] => 1
    | (_, j) :: rest => 1 + jsonSize j + jsonSizeFields rest

/-- The first probe of `Client.DocumentSymbols`: `Unmarshal` of the raw
result into `[]DocumentSymbol` (`null` decodes to the nil slice). -/
def documentSymbolsTryTree (raw : Json) : Except String (List DocumentSymbol) :=
  match raw with
  | .jnull => .ok []
  | .jarr elems => decodeDocSymsAux (jsonSize raw) elems
  | _ => .error "cannot unmarshal document symbol list"

/-- The `SymbolInformation` → `DocumentSymbol` conversion of
`Client.DocumentSymbols`: ranges copied from the location, empty child
list. -/
def symbolInformationToDocumentSymbol (info : SymbolInformation) : DocumentSymbol :=
  .mk info.name "" info.kind info.location.range info.location.range []

/-- The result decoding of `Client.DocumentSymbols`: try `[]DocumentSymbol`,
then fall back to `[]SymbolInformation` converted to document symbols. -/
def documentSymbolsDecode (raw : Json) : Except String (List DocumentSymbol) :=
  match documentSymbolsTryTree raw with
  | .ok ds => .ok ds
  | .error _ =>
    match decodeSymbolInformationList raw with
    | .error _ => .error "failed to parse document symbols"
    | .ok infos => .ok (infos.map symbolInformationToDocumentSymbol)

/-- Versioned document identifier, from `lsp.VersionedTextDocumentIdentifier`. -/
structure VersionedTextDocumentIdentifier where
  uri : String
  version : Nat

/-- Per-document edit group, from `lsp.TextDocumentEdit`. -/
structure TextDocumentEdit where
  textDocument : VersionedTextDocumentIdentifier
  edits : List TextEdit

/-- Workspace edit, from `lsp.WorkspaceEdit`: the `Changes` map (modelled as
an association list) and the `DocumentChanges` sequence; Go's nil map and
nil slice are both modelled by the empty list. -/
structure WorkspaceEdit where
  changes : List (String × List TextEdit)
  documentChanges : List TextDocumentEdit

/-- Decode of an `lsp.VersionedTextDocumentIdentifier` value. -/
def decodeVersionedTextDocumentIdentifier (j : Json) :
    Except String VersionedTextDocumentIdentifier :=
  match j with
  | .jnull => .ok ⟨"", 0⟩
  | .jobj fields => do
    let uri ← getStrField fields "uri"
    let version ← getNatField fields "version"
    .ok ⟨uri, version⟩
  | _ => .error "cannot unmarshal versioned text document identifier"

/-- Decode of an `lsp.TextDocumentEdit` value. -/
def decodeTextDocumentEdit (j : Json) : Except String TextDocumentEdit :=
  match j with
  | .jnull => .ok ⟨⟨"", 0⟩, []⟩
  | .jobj fields => do
    let textDocument ←
      match lookupField fields "textDocument" with
      | none => Except.ok (⟨"", 0⟩ : VersionedTextDocumentIdentifier)
      | some tj => decodeVersionedTextDocumentIdentifier tj
    let edits ←
      match lookupField fields "edits" with
      | none => Except.ok []
      | some ej => decodeTextEditList ej
    .ok ⟨textDocument, edits⟩
  | _ => .error "cannot unmarshal text document edit"

/-- Decode of the `changes` map of an `lsp.WorkspaceEdit`. -/
def decodeChanges (j : Json) : Except String (List (String × List TextEdit)) :=
  match j with
  | .jnull => .ok []
  | .jobj fields =>
    mapExcept (fun f => do
      let edits ← decodeTextEditList f.2
      Except.ok (f.1, edits)) fields
  | _ => .error "cannot unmarshal changes"

/-- Decode of an `lsp.WorkspaceEdit` value. -/
def decodeWorkspaceEdit (j : Json) : Except String WorkspaceEdit :=
  match j with
  | .jnull => .ok ⟨[], []⟩
  | .jobj fields => do
    let changes ←
      match lookupField fields "changes" with
      | none => Except.ok []
      | some cj => decodeChanges cj
    let documentChanges ←
      match lookupField fields "documentChanges" with
      | none => Except.ok []
      | some .jnull => Except.ok []
      | some (.jarr elems) => mapExcept decodeTextDocumentEdit elems
      | some _ => Except.error "cannot unmarshal document changes"
    .ok ⟨changes, documentChanges⟩
  | _ => .error "cannot unmarshal workspace edit"

/-- Hover contents, from `lsp.MarkupContent`. -/
structure MarkupContent where
  kind : String
  value : String

/-- Hover result, from `lsp.Hover`. -/
structure Hover where
  contents : MarkupContent
  range : Option Range

/-- Prepare-rename result, from `lsp.PrepareRenameResult`. -/
structure PrepareRenameResult where
  range : Range
  placeholder : String

/-- Code action, from `lsp.CodeAction`. -/
structure CodeAction where
  title : String
  kind : String
  diagnostics : List Diagnostic
  edit : Option WorkspaceEdit

/-! ## Notification sink and client handler wiring

`serverHandler` holds the diagnostics map (`nil` until the first push, then
`m[uri] = diagnostics` replaces the batch per URI). Two instances of it
exist per client: `newProcessConnection` creates a fresh `&serverHandler{}`
and registers it with the JSON-RPC connection, and `NewClient` creates a
second one (with an initialized map) and stores only that one in the
`Client` struct.
-/

/-- State of one `serverHandler`; `none` models Go's nil map. -/
structure ServerHandler where
  diagnostics : Option (List (String × List Diagnostic))

/-- Go map update `m[uri] = diags` on the association-list model: replace
the binding for `uri`, or add it. -/
def mapSetDiagnostics (m : List (String × List Diagnostic)) (uri : String)
    (diags : List Diagnostic) : List (String × List Diagnostic) :=
  match m with
  | [] => [(uri, diags)]
  | (k, v) :: rest =>
    if k = uri then (uri, diags) :: rest
    else (k, v) :: mapSetDiagnostics rest uri diags

/-- Go map read `m[uri]` (zero value: the empty batch). -/
def mapGetDiagnostics (m : List (String × List Diagnostic)) (uri : String) :
    List Diagnostic :=
  match m.find? (fun f => f.1 = uri) with
  | some f => f.2
  | none => []

/-- `serverHandler.Handle`: a `textDocument/publishDiagnostics` request whose
params are present and decode successfully replaces the stored batch for the
payload's URI (allocating the map on first use); every other method, and a
missing or undecodable payload, leaves the state unchanged and raises no
error. -/
def serverHandlerHandle (h : ServerHandler) (method : String)
    (params : Option Json) : ServerHandler :=
  if method = "textDocument/publishDiagnostics" then
    match params with
    | none => h
    | some p =>
      match decodePublishDiagnostics p with
      | .error _ => h
      | .ok pd =>
        ⟨some (mapSetDiagnostics (h.diagnostics.getD []) pd.uri pd.diagnostics)⟩
  else h

/-- The two handler instances of one client: the one attached to the
JSON-RPC connection inside `newProcessConnection`, and the one constructed
by `NewClient` and stored in the `Client` struct. -/
structure ClientHandlers where
  connHandler : ServerHandler
  clientHandler : ServerHandler

/-- Handler state after `NewClient`: `newProcessConnection` attaches a fresh
`&serverHandler{}` (nil map) to the connection, while `NewClient` builds a
separate handler with `make(map[string][]Diagnostic)` and stores that one in
the client. -/
def NewClientHandlers : ClientHandlers :=
  { connHandler := ⟨none⟩, clientHandler := ⟨some []⟩ }

/-- Delivery of a server-initiated message: the JSON-RPC connection
dispatches it to the handler it was constructed with, the one created inside
`newProcessConnection`. -/
def deliverNotification (c : ClientHandlers) (method : String)
    (params : Option Json) : ClientHandlers :=
  { c with connHandler := serverHandlerHandle c.connHandler method params }

/-- `Client.GetDiagnostics`: reads `c.handler.diagnostics`, the handler
stored in the `Client` struct (nil map reads as the empty batch). -/
def GetDiagnostics (c : ClientHandlers) (uri : String) : List Diagnostic :=
  match c.clientHandler.diagnostics with
  | none => []
  | some m => mapGetDiagnostics m uri

/-! ## Protocol client methods

Each positional method of `Client` first checks `c.initialized` under the
client lock and returns the `"client not initialized"` error without any
transport interaction; once initialized it sends exactly one call and
decodes the response. Each model function takes the `initialized` flag, the
method's own parameters, and the transport's response to the call it would
send, and returns the Go result paired with the list of protocol methods
actually sent over the transport.
-/

/-- Result of a client method paired with the protocol methods it sent. -/
abbrev ClientResult (α : Type) := Except String α × List String

/-- `Client.Definition`: single-or-array location result probing. -/
def clientDefinition (initialized : Bool) (uri : String) (position : Position)
    (resp : Except String Json) : ClientResult (List Location) :=
  if !initialized then (.error "client not initialized", [])
  else
    match resp with
    | .error e =>
      (.error ("definition request failed: " ++ e), ["textDocument/definition"])
    | .ok raw =>
      match locationsDecode raw with
      | .ok locs => (.ok locs, ["textDocument/definition"])
      | .error _ =>
        (.error "failed to unmarshal definition result", ["textDocument/definition"])

/-- `Client.References`. -/
def clientReferences (initialized : Bool) (uri : String) (position : Position)
    (includeDeclaration : Bool) (resp : Except String (List Location)) :
    ClientResult (List Location) :=
  if !initialized then (.error "client not initialized", [])
  else
    match resp with
    | .error e =>
      (.error ("references request failed: " ++ e), ["textDocument/references"])
    | .ok locs => (.ok locs, ["textDocument/references"])

/-- `Client.Hover`. -/
def clientHover (initialized : Bool) (uri : String) (position : Position)
    (resp : Except String Hover) : ClientResult Hover :=
  if !initialized then (.error "client not initialized", [])
  else
    match resp with
    | .error e => (.error ("hover request failed: " ++ e), ["textDocument/hover"])
    | .ok h => (.ok h, ["textDocument/hover"])

/-- `Client.PrepareRename`: the result pointer may be nil (`null` result). -/
def clientPrepareRename (initialized : Bool) (uri : String)
    (position : Position) (resp : Except String (Option PrepareRenameResult)) :
    ClientResult (Option PrepareRenameResult) :=
  if !initialized then (.error "client not initialized", [])
  else
    match resp with
    | .error e =>
      (.error ("prepareRename request failed: " ++ e), ["textDocument/prepareRename"])
    | .ok r => (.ok r, ["textDocument/prepareRename"])

/-- `Client.Rename`: a `null` (or empty) raw result is normalized to a
non-nil `WorkspaceEdit` with an empty (but allocated) changes map; any other
result is unmarshalled as a workspace edit. -/
def clientRename (initialized : Bool) (uri : String) (position : Position)
    (newName : String) (resp : Except String Json) :
    ClientResult (Option WorkspaceEdit) :=
  if !initialized then (.error "client not initialized", [])
  else
    match resp with
    | .error e =>
      (.error ("rename request failed: " ++ e), ["textDocument/rename"])
    | .ok raw =>
      if raw.isNull then (.ok (some ⟨[], []⟩), ["textDocument/rename"])
      else
        match decodeWorkspaceEdit raw with
        | .error _ =>
          (.error "failed to unmarshal rename result", ["textDocument/rename"])
        | .ok we => (.ok (some we), ["textDocument/rename"])

/-- `Client.Implementation`: single-or-array location result probing. -/
def clientImplementation (initialized : Bool) (uri : String)
    (position : Position) (resp : Except String Json) :
    ClientResult (List Location) :=
  if !initialized then (.error "client not initialized", [])
  else
    match resp with
    | .error e =>
      (.error ("implementation request failed: " ++ e), ["textDocument/implementation"])
    | .ok raw =>
      match locationsDecode raw with
      | .ok locs => (.ok locs, ["textDocument/implementation"])
      | .error _ =>
        (.error "failed to unmarshal implementation result",
          ["textDocument/implementation"])

/-- `Client.DocumentSymbols`: tree-or-flat result probing. -/
def clientDocumentSymbols (initialized : Bool) (uri : String)
    (resp : Except String Json) : ClientResult (List DocumentSymbol) :=
  if !initialized then (.error "client not initialized", [])
  else
    match resp with
    | .error e =>
      (.error ("documentSymbol request failed: " ++ e),
        ["textDocument/documentSymbol"])
    | .ok raw => (documentSymbolsDecode raw, ["textDocument/documentSymbol"])

/-- `Client.WorkspaceSymbol`. -/
def clientWorkspaceSymbol (initialized : Bool) (query : String)
    (resp : Except String (List SymbolInformation)) :
    ClientResult (List SymbolInformation) :=
  if !initialized then (.error "client not initialized", [])
  else
    match resp with
    | .error e =>
      (.error ("workspace-symbol request failed: " ++ e), ["workspace/symbol"])
    | .ok syms => (.ok syms, ["workspace/symbol"])

/-- `Client.DocumentFormatting`. -/
def clientDocumentFormatting (initialized : Bool) (uri : String)
    (resp : Except String (List TextEdit)) : ClientResult (List TextEdit) :=
  if !initialized then (.error "client not initialized", [])
  else
    match resp with
    | .error e =>
      (.error ("formatting request failed: " ++ e), ["textDocument/formatting"])
    | .ok edits => (.ok edits, ["textDocument/formatting"])

/-- `Client.Format` (a second formatting method with the same behavior). -/
def clientFormat (initialized : Bool) (uri : String)
    (resp : Except String (List TextEdit)) : ClientResult (List TextEdit) :=
  if !initialized then (.error "client not initialized", [])
  else
    match resp with
    | .error e =>
      (.error ("formatting request failed: " ++ e), ["textDocument/formatting"])
    | .ok edits => (.ok edits, ["textDocument/formatting"])

/-- `Client.CodeActionForRange`. -/
def clientCodeActionForRange (initialized : Bool) (uri : String) (r : Range)
    (resp : Except String (List CodeAction)) : ClientResult (List CodeAction) :=
  if !initialized then (.error "client not initialized", [])
  else
    match resp with
    | .error e =>
      (.error ("code action request failed: " ++ e), ["textDocument/codeAction"])
    | .ok actions => (.ok actions, ["textDocument/codeAction"])

/-! ## Path and URI conversion

`PathToURI` and `URIToPath` from the utils package, modelled for absolute
linux paths of single-byte characters: `filepath.Abs` reduces to
`path.Clean`, `filepath.ToSlash` / `FromSlash` are the identity, and the
`runtime.GOOS == "windows"` branches are dead. The library behavior of
`net/url` is modelled faithfully on this domain: `url.URL{Scheme: "file",
Path: p}.String()` produces `"file://"` followed by the percent-escaped
path, and `url.Parse` of such a URI percent-decodes the path once into
`u.Path` (failing on a malformed escape), after which `URIToPath` calls
`url.PathUnescape` on the already-decoded path a second time.
-/

/-- `filepath.IsAbs` on linux. -/
def isAbsPath (p : List Char) : Bool :=
  match p with
  | '/' :: _ => true
  | _ => false

/-- Split on a separator character (Go `strings.Split` with a one-character
separator). -/
def splitOnChar (sep : Char) : List Char → List (List Char)
  | [] => [[]]
  | c :: rest =>
    if c = sep then [] :: splitOnChar sep rest
    else
      match splitOnChar sep rest with
      | l :: ls => (c :: l) :: ls
      | [] => [[c]]

/-- Modelled library function `path.Clean` for rooted paths: drop empty and
`.` components, resolve `..` against the stack (never past the root), and
reassemble with a leading slash. -/
def cleanAbsPath (p : List Char) : List Char :=
  match (splitOnChar '/' p).foldl
      (fun stack comp =>
        if comp = [] ∨ comp = ['.'] then stack
        else if comp = ['.', '.'] then stack.dropLast
        else stack ++ [comp]) [] with
  | [] => ['/']
  | comps => '/' :: List.intercalate ['/'] comps

/-- Upper-case hexadecimal digit, as Go's `upperhex` table. -/
def upperHexDigit (n : Nat) : Char :=
  if n < 10 then Char.ofNat ('0'.toNat + n) else Char.ofNat ('A'.toNat + n - 10)

/-- Modelled library predicate `shouldEscape(c, encodePath)` of `net/url`:
alphanumerics, the unreserved marks `-._~` and the path sub-delimiters
`$&+,/:;=@` stay verbatim; everything else (including `%` and `?`) is
percent-escaped. -/
def shouldEscapePathChar (c : Char) : Bool :=
  !(('a' ≤ c ∧ c ≤ 'z') ∨ ('A' ≤ c ∧ c ≤ 'Z') ∨ ('0' ≤ c ∧ c ≤ '9') ∨
    c ∈ ['-', '_', '.', '~'] ∨
    c ∈ ['$', '&', '+', ',', '/', ':', ';', '=', '@'])

/-- Modelled library function: the percent-escaping `url.URL.String` applies
to the path. -/
def escapePath (p : List Char) : List Char :=
  p.foldr
    (fun c acc =>
      if shouldEscapePathChar c then
        '%' :: upperHexDigit (c.toNat / 16) :: upperHexDigit (c.toNat % 16) :: acc
      else c :: acc) []

/-- Hexadecimal digit value, as `net/url`'s `unhex`. -/
def unhexDigit (c : Char) : Option Nat :=
  if '0' ≤ c ∧ c ≤ '9' then some (c.toNat - '0'.toNat)
  else if 'a' ≤ c ∧ c ≤ 'f' then some (c.toNat - 'a'.toNat + 10)
  else if 'A' ≤ c ∧ c ≤ 'F' then some (c.toNat - 'A'.toNat + 10)
  else none

/-- Modelled library function: percent-decoding as performed both by
`url.Parse` on the path and by `url.PathUnescape`, failing on a malformed
escape sequence. -/
def pathUnescape : List Char → Except String (List Char)
  | [] => .ok []
  | '%' :: a :: b :: rest =>
    match unhexDigit a, unhexDigit b with
    | some x, some y => do
      let tail ← pathUnescape rest
      .ok (Char.ofNat (16 * x + y) :: tail)
    | _, _ => .error "invalid URL escape"
  | '%' :: _ => .error "invalid URL escape"
  | c :: rest => do
    let tail ← pathUnescape rest
    .ok (c :: tail)

/-- `PathToURI`, for absolute linux paths: normalize the path and render the
`file` URL. -/
def PathToURI (path : List Char) : Except String (List Char) :=
  if isAbsPath path then
    .ok ("file://".data ++ escapePath (cleanAbsPath path))
  else .error "relative paths are outside the modelled domain"

/-- `URIToPath`: parse the `file` URI (which percent-decodes the path once),
then apply `url.PathUnescape` to the decoded path a second time. -/
def URIToPath (uri : List Char) : Except String (List Char) :=
  if "file://".data.isPrefixOf uri then
    match pathUnescape (uri.drop 7) with
    | .error _ => .error "failed to parse URI"
    | .ok path =>
      match pathUnescape path with
      | .error _ => .error "failed to unescape path"
      | .ok p => .ok p
  else .error "expected file URI"

/-! ## Position conversion -/

/-- `utils.ConvertPosition`: 1-indexed user line/column (Go `int`s) to the
0-indexed protocol position, modelled as a pair of integers. -/
def ConvertPosition (line column : Int) : Int × Int :=
  (line - 1, column - 1)

/-- `utils.ConvertToUserPosition`: 0-indexed protocol position back to
1-indexed user line/column. -/
def ConvertToUserPosition (pos : Int × Int) : Int × Int :=
  (pos.1 + 1, pos.2 + 1)

/-! ## RenameSymbol handler result message -/

/-- The success-message construction at the end of the RenameSymbol tool
handler: when at least one file was modified, the Go code reads
`prepareResult.Placeholder`, where `prepareResult` is nil whenever
`PrepareRename` failed (the handler deliberately continues past that
failure) or returned a `null` result; `none` in the result models the nil
pointer dereference (runtime panic) this causes. The message text is
abbreviated; the modelled fact is which data the construction reads. -/
def renameResultMessage (prepareResult : Option PrepareRenameResult)
    (newName : String) (filesModified : List String) : Option String :=
  if filesModified.length > 0 then
    match prepareResult with
    | none => none
    | some pr =>
      some ("Successfully renamed " ++ pr.placeholder ++ " to " ++ newName ++
        " in " ++ toString filesModified.length ++ " file(s)")
  else some "No files were modified"

/-! ## Sample wire payloads used by the evaluations below -/

/-- A sample diagnostic. -/
def sampleDiagnostic : Diagnostic :=
  ⟨⟨⟨0, 0⟩, ⟨0, 5⟩⟩, 1, none, "compiler", "undefined: x"⟩

/-- The JSON payload of a `textDocument/publishDiagnostics` notification
carrying `sampleDiagnostic` for `file:///a.go`. -/
def samplePublishPayload : Json :=
  .jobj [("uri", .jstr "file:///a.go"),
    ("diagnostics", .jarr [.jobj [
      ("range", .jobj [
        ("start", .jobj [("line", .jnum 0), ("character", .jnum 0)]),
        ("end", .jobj [("line", .jnum 0), ("character", .jnum 5)])]),
      ("severity", .jnum 1),
      ("source", .jstr "compiler"),
      ("message", .jstr "undefined: x")]])]

/-- A flat `[]SymbolInformation` reply to `textDocument/documentSymbol`: one
record with a location whose range is (1,2)-(3,4). -/
def flatSymbolsPayload : Json :=
  .jarr [.jobj [("name", .jstr "Foo"), ("kind", .jnum 12),
    ("location", .jobj [("uri", .jstr "file:///a.go"),
      ("range", .jobj [
        ("start", .jobj [("line", .jnum 1), ("character", .jnum 2)]),
        ("end", .jobj [("line", .jnum 3), ("character", .jnum 4)])])]),
    ("containerName", .jstr "pkg")]]

theorem mem_orderedInsertEdit {a e : TextEdit} {l : List TextEdit} :
    a ∈ orderedInsertEdit e l ↔ a = e ∨ a ∈ l := by
  induction l with
  | nil => simp [orderedInsertEdit]
  | cons x xs ih =>
    simp only [orderedInsertEdit]
    split
    · simp [List.mem_cons]
    · simp only [List.mem_cons, ih]
      tauto

theorem mem_sortEditsRev {a : TextEdit} {l : List TextEdit} :
    a ∈ sortEditsRev l ↔ a ∈ l := by
  induction l with
  | nil => simp [sortEditsRev]
  | cons e es ih => simp [sortEditsRev, mem_orderedInsertEdit, ih]

/-- Applying one edit whose range is ordered never increases the number of
lines: a single-line splice keeps the count, a multi-line merge replaces the
`[startLine, endLine]` span (at least two lines) by one line. -/
theorem applyOneEdit_length_le {lines lines' : List (List Char)} {e : TextEdit}
    (hord : RangeOrdered e) (h : applyOneEdit lines e = .ok lines') :
    lines'.length ≤ lines.length := by
  unfold applyOneEdit at h
  split at h
  · simp at h
  · rename_i hbounds
    push_neg at hbounds
    split at h
    · split at h
      · simp at h
      · injection h with h
        subst h
        simp [List.length_set]
    · rename_i heq
      split at h
      · simp at h
      · injection h with h
        subst h
        have hlt : e.range.start.line < e.range.end.line := by
          rcases hord with h1 | ⟨h2, _⟩
          · exact h1
          · exact absurd h2 heq
        simp only [List.length_append, List.length_take, List.length_drop,
          List.length_cons, List.length_nil]
        omega

/-- If some edit in the list addresses a line index at or beyond `n`, and the
current line count is at most `n`, the edit loop fails (line counts never
grow along the loop, so the offending edit is still out of bounds when it is
reached, unless an earlier edit already failed). -/
theorem applyEdits_error_of_oob {e0 : TextEdit} {n : Nat} :
    ∀ (l : List TextEdit) (lines : List (List Char)),
      (∀ e ∈ l, RangeOrdered e) → e0 ∈ l →
      (n ≤ e0.range.start.line ∨ n ≤ e0.range.end.line) →
      lines.length ≤ n →
      ∃ msg, applyEdits lines l = .error msg := by
  intro l
  induction l with
  | nil =>
    intro lines _ hmem
    exact absurd hmem (List.not_mem_nil e0)
  | cons h t ih =>
    intro lines hord hmem hoob hlen
    rcases hh : applyOneEdit lines h with msg | lines'
    · exact ⟨msg, by simp [applyEdits, hh]⟩
    · rcases List.mem_cons.mp hmem with rfl | hmem'
      · exfalso
        have hcond : lines.length ≤ e0.range.start.line ∨
            lines.length ≤ e0.range.end.line := by omega
        unfold applyOneEdit at hh
        rw [if_pos hcond] at hh
        simp at hh
      · have hlen' : lines'.length ≤ n :=
          le_trans (applyOneEdit_length_le (hord h (List.mem_cons_self h t)) hh) hlen
        obtain ⟨msg, hmsg⟩ :=
          ih lines' (fun e he => hord e (List.mem_cons_of_mem h he)) hmem' hoob hlen'
        exact ⟨msg, by simp [applyEdits, hh, hmsg]⟩

/-- C2 (amended): for every file content and edit batch whose ranges satisfy
the documented start ≤ end invariant, if some edit has a start or end line
index not less than the number of lines of the file, the apply call returns
an error and the file content on disk is left unchanged (no write occurs,
even if earlier edits in the processing order were valid). Character
offsets, by contrast, are only checked against line contents at processing
time, so a character offset beyond the addressed line's length in the
original file need not cause an error (see the counterexample). -/
theorem applyEditsToFile_line_oob_aborts (content : List Char)
    (edits : List TextEdit) (hord : ∀ e ∈ edits, RangeOrdered e)
    (e0 : TextEdit) (hmem : e0 ∈ edits)
    (hoob : (splitLines content).length ≤ e0.range.start.line ∨
      (splitLines content).length ≤ e0.range.end.line) :
    (∃ msg, applyEditsToFile content edits = .error msg) ∧
      applyEditsToDisk content edits = content := by
  obtain ⟨msg, hmsg⟩ := applyEdits_error_of_oob (sortEditsRev edits)
    (splitLines content) (fun e he => hord e (mem_sortEditsRev.mp he))
    (mem_sortEditsRev.mpr hmem) hoob le_rfl
  refine ⟨⟨msg, ?_⟩, ?_⟩
  · simp [applyEditsToFile, hmsg]
  · simp [applyEditsToDisk, applyEditsToFile, hmsg]

/-- Witness for the amended C2 theorem: a batch whose only edit addresses
line 5 of a one-line file errors out and leaves the content unchanged. -/
theorem applyEditsToFile_line_oob_aborts_witness :
    (∃ msg, applyEditsToFile "a".data [⟨⟨⟨5, 0⟩, ⟨5, 0⟩⟩, "x".data⟩] =
      .error msg) ∧
      applyEditsToDisk "a".data [⟨⟨⟨5, 0⟩, ⟨5, 0⟩⟩, "x".data⟩] = "a".data :=
  applyEditsToFile_line_oob_aborts "a".data _
    (by
      intro e he
      simp only [List.mem_singleton] at he
      subst he
      exact Or.inr ⟨rfl, le_rfl⟩)
    ⟨⟨⟨5, 0⟩, ⟨5, 0⟩⟩, "x".data⟩ (by simp) (by decide)

/-- C2 counterexample: the file `"ab"` with the batch containing the edit
(0,0)-(0,4) → `"Y"` (end character 4 exceeds the length 2 of line 0) and the
edit (0,2)-(0,2) → `"xxxx"`. The claim requires the apply call to error and
leave the file untouched; the code instead applies the insertion first
(reverse order), which lengthens line 0 to 6 characters, making offset 4
valid at processing time: the call succeeds and writes `"Yxx"`. -/
theorem applyEditsToFile_char_oob_counterexample :
    ((splitLines "ab".data).getD 0 []).length < 4 ∧
      applyEditsToFile "ab".data
        [⟨⟨⟨0, 0⟩, ⟨0, 4⟩⟩, "Y".data⟩, ⟨⟨⟨0, 2⟩, ⟨0, 2⟩⟩, "xxxx".data⟩] =
        .ok "Yxx".data ∧
      applyEditsToDisk "ab".data
        [⟨⟨⟨0, 0⟩, ⟨0, 4⟩⟩, "Y".data⟩, ⟨⟨⟨0, 2⟩, ⟨0, 2⟩⟩, "xxxx".data⟩] ≠
        "ab".data :=
  ⟨by decide, rfl, by decide⟩

/-- C3: applying to the single-line file `"abcdef"` the one edit replacing
range (0,1)-(0,3) with `"XY"` produces the content `"aXYdef"`. -/
theorem applyEditsToFile_single_line_example :
    applyEditsToFile "abcdef".data [⟨⟨⟨0, 1⟩, ⟨0, 3⟩⟩, "XY".data⟩] =
      .ok "aXYdef".data := rfl

/-- C4: for every file content and every pair of edits, one starting on
line 5 and one starting on line 10, the reverse-order algorithm produces the
same result whichever of the two orders the input list uses (the descending
sort maps both input orders to the same processing order). -/
theorem applyEditsToFile_order_independent (content : List Char)
    (e1 e2 : TextEdit) (h1 : e1.range.start.line = 5)
    (h2 : e2.range.start.line = 10) :
    applyEditsToFile content [e1, e2] = applyEditsToFile content [e2, e1] := by
  have hs : sortEditsRev [e1, e2] = sortEditsRev [e2, e1] := by
    simp [sortEditsRev, orderedInsertEdit, editGreater, h1, h2]
  simp [applyEditsToFile, hs]

/-- Witness for the C4 theorem at a concrete file and pair of edits. -/
theorem applyEditsToFile_order_independent_witness :
    applyEditsToFile "a\nb\nc\nd\ne\nf\ng\nh\ni\nj\nk".data
      [⟨⟨⟨5, 0⟩, ⟨5, 1⟩⟩, "F".data⟩, ⟨⟨⟨10, 0⟩, ⟨10, 1⟩⟩, "K".data⟩] =
    applyEditsToFile "a\nb\nc\nd\ne\nf\ng\nh\ni\nj\nk".data
      [⟨⟨⟨10, 0⟩, ⟨10, 1⟩⟩, "K".data⟩, ⟨⟨⟨5, 0⟩, ⟨5, 1⟩⟩, "F".data⟩] :=
  applyEditsToFile_order_independent "a\nb\nc\nd\ne\nf\ng\nh\ni\nj\nk".data
    ⟨⟨⟨5, 0⟩, ⟨5, 1⟩⟩, "F".data⟩ ⟨⟨⟨10, 0⟩, ⟨10, 1⟩⟩, "K".data⟩ rfl rfl

/-- C1: a delivered diagnostics push is ingested by the handler attached to
the JSON-RPC connection (the one created inside `newProcessConnection`), but
`GetDiagnostics` reads the separate handler instance stored by `NewClient`
in the `Client` struct, which never receives any notification: after a
well-formed push for `file:///a.go` carrying one diagnostic, the batch sits
in the connection handler's map while `GetDiagnostics` still returns the
empty batch, not the delivered one. -/
theorem getDiagnostics_misses_delivered_batch :
    decodePublishDiagnostics samplePublishPayload =
      .ok ⟨"file:///a.go", [sampleDiagnostic]⟩ ∧
    (deliverNotification NewClientHandlers "textDocument/publishDiagnostics"
        (some samplePublishPayload)).connHandler.diagnostics =
      some [("file:///a.go", [sampleDiagnostic])] ∧
    GetDiagnostics
        (deliverNotification NewClientHandlers
          "textDocument/publishDiagnostics" (some samplePublishPayload))
        "file:///a.go" = [] ∧
    ([] : List Diagnostic) ≠ [sampleDiagnostic] :=
  ⟨rfl, rfl, rfl, by simp⟩

/-- C5: the path → URI → path round trip double-decodes percent escapes:
`url.Parse` decodes the URI's path once and `URIToPath` then runs
`url.PathUnescape` over the already-decoded path, so the normalized path
`"/a%41"` (its own clean form) round-trips to `"/aA"` instead of itself. -/
theorem uriRoundTrip_double_decode :
    PathToURI "/a%41".data = .ok "file:///a%2541".data ∧
    (PathToURI "/a%41".data).bind URIToPath = .ok "/aA".data ∧
    cleanAbsPath "/a%41".data = "/a%41".data ∧
    "/aA".data ≠ "/a%41".data :=
  ⟨rfl, rfl, rfl, by decide⟩

/-- C6: on an initialized client, a `null` rename result is normalized to a
non-nil `WorkspaceEdit` with no changes and no document changes, returned
with a nil error, after exactly the one `textDocument/rename` call. -/
theorem rename_null_normalized (uri : String) (position : Position)
    (newName : String) :
    clientRename true uri position newName (.ok .jnull) =
      (.ok (some ⟨[], []⟩), ["textDocument/rename"]) := rfl

/-- C7: on a flat `[]SymbolInformation` reply, the first, lenient unmarshal
into `[]DocumentSymbol` already succeeds (the unknown `location` key is
ignored and the missing `range`/`selectionRange`/`children` keys are
zeroed), so the conversion branch never runs: the caller receives a symbol
whose `Range` and `SelectionRange` are the zero range, not the record's
location range (1,2)-(3,4) that the claimed conversion would produce. -/
theorem documentSymbols_flat_not_converted :
    decodeSymbolInformationList flatSymbolsPayload =
      .ok [⟨"Foo", 12, ⟨"file:///a.go", ⟨⟨1, 2⟩, ⟨3, 4⟩⟩⟩, "pkg"⟩] ∧
    clientDocumentSymbols true "file:///a.go" (.ok flatSymbolsPayload) =
      (.ok [.mk "Foo" "" 12 ⟨⟨0, 0⟩, ⟨0, 0⟩⟩ ⟨⟨0, 0⟩, ⟨0, 0⟩⟩ []],
        ["textDocument/documentSymbol"]) ∧
    (⟨⟨0, 0⟩, ⟨0, 0⟩⟩ : Range) ≠ ⟨⟨1, 2⟩, ⟨3, 4⟩⟩ :=
  ⟨rfl, rfl, by decide⟩

/-- C8: every positional operation of the protocol client, invoked on a
client that has not been initialized, returns the "client not initialized"
error and sends no call or notification over the transport, whatever the
parameters and whatever the transport would have answered. -/
theorem uninitializedOps_send_nothing :
    (∀ uri position resp, clientDefinition false uri position resp =
      (.error "client not initialized", [])) ∧
    (∀ uri position incl resp, clientReferences false uri position incl resp =
      (.error "client not initialized", [])) ∧
    (∀ uri position resp, clientHover false uri position resp =
      (.error "client not initialized", [])) ∧
    (∀ uri position newName resp, clientRename false uri position newName resp =
      (.error "client not initialized", [])) ∧
    (∀ uri position resp, clientPrepareRename false uri position resp =
      (.error "client not initialized", [])) ∧
    (∀ uri position resp, clientImplementation false uri position resp =
      (.error "client not initialized", [])) ∧
    (∀ uri resp, clientDocumentSymbols false uri resp =
      (.error "client not initialized", [])) ∧
    (∀ query resp, clientWorkspaceSymbol false query resp =
      (.error "client not initialized", [])) ∧
    (∀ uri resp, clientDocumentFormatting false uri resp =
      (.error "client not initialized", [])) ∧
    (∀ uri resp, clientFormat false uri resp =
      (.error "client not initialized", [])) ∧
    (∀ uri r resp, clientCodeActionForRange false uri r resp =
      (.error "client not initialized", [])) :=
  ⟨fun _ _ _ => rfl, fun _ _ _ _ => rfl, fun _ _ _ => rfl, fun _ _ _ _ => rfl,
    fun _ _ _ => rfl, fun _ _ _ => rfl, fun _ _ => rfl, fun _ _ => rfl,
    fun _ _ => rfl, fun _ _ => rfl, fun _ _ _ => rfl⟩

/-- C9: the 1-indexed → 0-indexed position conversion and its inverse are
mutually inverse on the valid domain (line, column ≥ 1 on the user side;
line, character ≥ 0 on the protocol side). -/
theorem positionConversion_roundTrip (line column : Int) (q : Int × Int)
    (h1 : 1 ≤ line) (h2 : 1 ≤ column) (h3 : 0 ≤ q.1) (h4 : 0 ≤ q.2) :
    ConvertToUserPosition (ConvertPosition line column) = (line, column) ∧
    ConvertPosition (ConvertToUserPosition q).1 (ConvertToUserPosition q).2 = q := by
  constructor
  · simp [ConvertPosition, ConvertToUserPosition]
  · cases q
    simp [ConvertPosition, ConvertToUserPosition]

/-- Witness for the C9 theorem at concrete positions. -/
theorem positionConversion_roundTrip_witness :
    ConvertToUserPosition (ConvertPosition 3 7) = (3, 7) ∧
    ConvertPosition (ConvertToUserPosition (0, 4)).1
      (ConvertToUserPosition (0, 4)).2 = (0, 4) :=
  positionConversion_roundTrip 3 7 (0, 4) (by norm_num) (by norm_num)
    (by norm_num) (by norm_num)

/-- C10: the RenameSymbol handler's result-message construction reads the
prepare result's placeholder exactly when the modified file set is
non-empty, with no nil check: it panics (models as `none`) precisely when
the prepare result is nil and at least one file was modified, i.e. it is
total only under the precondition that `PrepareRename` produced a result
whenever files end up modified. -/
theorem renameResultMessage_nil_deref (prepareResult : Option PrepareRenameResult)
    (newName : String) (filesModified : List String) :
    renameResultMessage prepareResult newName filesModified = none ↔
      prepareResult = none ∧ filesModified ≠ [] := by
  unfold renameResultMessage
  rcases filesModified with _ | ⟨f, fs⟩
  · simp
  · rcases prepareResult with _ | pr <;> simp

end McpGopls
